import Mathlib

/-!
# Verification of the cell-activation model (`cell.py`)

Shallow embedding of the simulation in `src/cell.py`:

* `Cell` carries the per-cell state (`kind` replaces the Python class
  hierarchy `Cell`/`Producer`/`Consumer`, as the data is otherwise shared);
* randomness is threaded explicitly through an `RNG` value holding the
  stream of draws of the shared pseudorandom source (`r.random()` draws a
  rational, `r.randint(a,b)` maps a natural draw into `[a,b]`);
* the grid of a `width × height` dish is the list of cells in scheduler
  (insertion) order, position `(x, y)` at index `x * height + y`;
* `stepAgent` is a single agent's `step()`, `PetriDish.step` one tick of
  the `BaseScheduler` (sequential, in insertion order, not double-buffered).
-/

namespace CellModel

/-- The three concrete classes of `cell.py`: plain `Cell`, `Producer`,
`Consumer`. -/
inductive CellKind where
  | neutral
  | producer
  | consumer
deriving DecidableEq, Repr

/-- State of one agent: the attributes set in `Cell.__init__` plus its
kind. -/
structure Cell where
  kind : CellKind
  activated : Bool
  activation_odds : ℚ
  active_turns : ℕ
  energy : ℤ
deriving DecidableEq, Repr

/-- The shared pseudorandom source `random` of the session, as explicit
streams of draws: `floats` feeds successive `r.random()` calls, `nats`
feeds successive `r.randint` calls. -/
structure RNG where
  floats : ℕ → ℚ
  nats : ℕ → ℕ
  fidx : ℕ
  nidx : ℕ

/-- Python `r.random()`: consume the next float draw. -/
def RNG.random (g : RNG) : ℚ × RNG :=
  (g.floats g.fidx, { g with fidx := g.fidx + 1 })

/-- Python `r.randint(a, b)`: consume the next natural draw, mapped into the
inclusive range `[a, b]`. -/
def RNG.randint (g : RNG) (a b : ℤ) : ℤ × RNG :=
  (a + (g.nats g.nidx : ℤ) % (b - a + 1), { g with nidx := g.nidx + 1 })

/-- Python `Cell.__init__`: `active_turns = 0`, `energy = 20` if constructed
activated else `5`. -/
def Cell.init (kind : CellKind) (activated : Bool) (activation_odds : ℚ := mkRat 1 2) :
    Cell :=
  { kind := kind
    activated := activated
    activation_odds := activation_odds
    active_turns := 0
    energy := if activated then 20 else 5 }

/-- Python `Cell.add_energy`: `if self.energy + n < 100: self.energy += n else:
self.energy = 100`. -/
def Cell.add_energy (c : Cell) (n : ℤ) : Cell :=
  if c.energy + n < 100 then { c with energy := c.energy + n }
  else { c with energy := 100 }

/-- Python `Cell.subtract_energy`: `if self.energy - n >= 0: self.energy -= n
else: self.energy = 0`. -/
def Cell.subtract_energy (c : Cell) (n : ℤ) : Cell :=
  if c.energy - n ≥ 0 then { c with energy := c.energy - n }
  else { c with energy := 0 }

/-- Python `Cell.activate`: increment `active_turns` if activated; then, if
`energy > 10`, draw `r.random()` and set `activated = True` when the roll
is `≤ activation_odds`. -/
def Cell.activate (c : Cell) (g : RNG) : Cell × RNG :=
  let c1 := if c.activated then { c with active_turns := c.active_turns + 1 } else c
  if c1.energy > 10 then
    let rg := g.random
    if rg.1 ≤ c1.activation_odds then ({ c1 with activated := true }, rg.2)
    else (c1, rg.2)
  else (c1, g)

/-- Python `Cell.roll_for_deactivation`: the probabilistic branch is a `pass`;
if `energy <= 10`, force `activated = False` and `active_turns = 0`. -/
def Cell.roll_for_deactivation (c : Cell) : Cell :=
  if c.energy ≤ 10 then { c with activated := false, active_turns := 0 } else c

/-- Python `Cell.step_maintenance`: `activate()`, `subtract_energy(1)`,
`roll_for_deactivation()`. -/
def Cell.step_maintenance (c : Cell) (g : RNG) : Cell × RNG :=
  let ag := c.activate g
  ((ag.1.subtract_energy 1).roll_for_deactivation, ag.2)

/-- Offsets `(dx, dy)` of the Moore neighborhood in the order mesa's
`neighbor_iter` yields them (`dy` outer from `-1` to `1`, `dx` inner,
center skipped). -/
def mooreOffsets : List (ℤ × ℤ) :=
  [(-1, -1), (0, -1), (1, -1), (-1, 0), (1, 0), (-1, 1), (0, 1), (1, 1)]

/-- Scheduler indices of the in-bounds Moore neighbors of `(x, y)` on a
non-toroidal `w × h` grid (position `(x, y)` lives at index
`x * h + y`). -/
def neighborIndices (w h : ℕ) (x y : ℕ) : List ℕ :=
  mooreOffsets.filterMap fun o =>
    let nx := (x : ℤ) + o.1
    let ny := (y : ℤ) + o.2
    if 0 ≤ nx ∧ nx < (w : ℤ) ∧ 0 ≤ ny ∧ ny < (h : ℤ) then
      some (nx.toNat * h + ny.toNat)
    else none

/-- The Producer/Consumer transfer loop: for each target index in order,
draw `r.randint(1, 5)` and apply `f` (an energy transfer) to the cell at
that index. -/
def transferLoop (cells : List Cell) (g : RNG) (idxs : List ℕ)
    (f : Cell → ℤ → Cell) : List Cell × RNG :=
  match idxs with
  | [] => (cells, g)
  | j :: rest =>
    let kg := g.randint 1 5
    let cells1 :=
      match cells[j]? with
      | some t => cells.set j (f t kg.1)
      | none => cells
    transferLoop cells1 kg.2 rest f

/-- One agent's `step()`: `step_maintenance()`, then — depending on the
class — the Producer push (`activated and active_turns <= 15`:
`add_energy(randint(1,5))` on every Moore neighbor) or the Consumer drain
(`activated and active_turns > 5`: `subtract_energy(randint(1,5))`). -/
def stepAgent (w h : ℕ) (cells : List Cell) (g : RNG) (i : ℕ) :
    List Cell × RNG :=
  match cells[i]? with
  | none => (cells, g)
  | some c =>
    let mg := c.step_maintenance g
    let c1 := mg.1
    let cells1 := cells.set i c1
    let idxs := neighborIndices w h (i / h) (i % h)
    match c1.kind with
    | CellKind.neutral => (cells1, mg.2)
    | CellKind.producer =>
      if c1.activated = true ∧ c1.active_turns ≤ 15 then
        transferLoop cells1 mg.2 idxs (fun t k => t.add_energy k)
      else (cells1, mg.2)
    | CellKind.consumer =>
      if c1.activated = true ∧ c1.active_turns > 5 then
        transferLoop cells1 mg.2 idxs (fun t k => t.subtract_energy k)
      else (cells1, mg.2)

/-- A `PetriDish`: grid dimensions and the cells in scheduler (insertion)
order, position `(x, y)` at index `x * height + y`. -/
structure PetriDish where
  width : ℕ
  height : ℕ
  cells : List Cell
deriving DecidableEq, Repr

/-- Python `PetriDish.step`: the `BaseScheduler` pass — every agent's `step()`
exactly once, in insertion order, each seeing the mutations of the agents
stepped before it. -/
def PetriDish.step (d : PetriDish) (g : RNG) : PetriDish × RNG :=
  let res := (List.range d.cells.length).foldl
    (fun p i => stepAgent d.width d.height p.1 p.2 i) (d.cells, g)
  ({ d with cells := res.1 }, res.2)

/-- Iterate `n` consecutive `step()` calls. -/
def stepN (d : PetriDish) (g : RNG) : ℕ → PetriDish × RNG
  | 0 => (d, g)
  | n + 1 =>
    let dg := d.step g
    stepN dg.1 dg.2 n

/-- Body of the population loop of `PetriDish.__init__` over the listed
positions: draw `roll = r.random()`, then place the pre-activated initial
activator at the center, else a Producer when `roll <= pp`, else a
Consumer when `roll <= pp + pc`, else a plain cell. -/
def placeCells (center : ℕ × ℕ) (pp pc : ℚ) :
    List (ℕ × ℕ) → RNG → List Cell × RNG
  | [], g => ([], g)
  | p :: rest, g =>
    let rg := g.random
    let c :=
      if p = center then Cell.init CellKind.producer true
      else if rg.1 ≤ pp then Cell.init CellKind.producer false
      else if rg.1 ≤ pp + pc then Cell.init CellKind.consumer false
      else Cell.init CellKind.neutral false
    let rec_ := placeCells center pp pc rest rg.2
    (c :: rec_.1, rec_.2)

/-- Iteration order of the population loop: `x` outer over
`range(width)`, `y` inner over `range(height)`. -/
def positions (w h : ℕ) : List (ℕ × ℕ) :=
  (List.range w).flatMap fun x => (List.range h).map fun y => (x, y)

/-- Python `PetriDish.__init__`: center at `(floor(w/2), floor(h/2))`, then the
population loop over all positions in order. -/
def PetriDish.init (w h : ℕ) (pp pc : ℚ) (g : RNG) : PetriDish × RNG :=
  let cg := placeCells (w / 2, h / 2) pp pc (positions w h) g
  ({ width := w, height := h, cells := cg.1 }, cg.2)

/-! ## Basic lemmas on the cell state machine -/

attribute [local semireducible] Rat.add

theorem Cell.activate_energy (c : Cell) (g : RNG) : (c.activate g).1.energy = c.energy := by
  unfold Cell.activate
  dsimp only
  split_ifs <;> rfl

theorem Cell.activate_kind (c : Cell) (g : RNG) : (c.activate g).1.kind = c.kind := by
  unfold Cell.activate
  dsimp only
  split_ifs <;> rfl

theorem Cell.activate_odds (c : Cell) (g : RNG) :
    (c.activate g).1.activation_odds = c.activation_odds := by
  unfold Cell.activate
  dsimp only
  split_ifs <;> rfl

theorem Cell.activate_turns_of_not_activated (c : Cell) (g : RNG)
    (h : c.activated = false) : (c.activate g).1.active_turns = c.active_turns := by
  unfold Cell.activate
  dsimp only
  simp only [h, Bool.false_eq_true, if_false]
  split_ifs <;> rfl

theorem Cell.add_energy_of_lt (c : Cell) (n : ℤ) (h : c.energy + n < 100) :
    c.add_energy n = { c with energy := c.energy + n } := by
  unfold Cell.add_energy
  rw [if_pos h]

theorem Cell.subtract_energy_of_le (c : Cell) (n : ℤ) (h : n ≤ c.energy) :
    c.subtract_energy n = { c with energy := c.energy - n } := by
  unfold Cell.subtract_energy
  rw [if_pos (by omega)]

theorem Cell.step_maintenance_kind (c : Cell) (g : RNG) :
    (c.step_maintenance g).1.kind = c.kind := by
  have h := c.activate_kind g
  unfold Cell.step_maintenance Cell.subtract_energy Cell.roll_for_deactivation
  dsimp only
  split_ifs <;> exact h

/-- When the incoming energy is in `[1, 11]`, the maintenance part of a tick
decays it by `1` and the deactivation check then fires: the cell comes out
deactivated with `active_turns = 0`, whatever the random draws did. -/
theorem Cell.step_maintenance_deactivates (c : Cell) (g : RNG)
    (h1 : 1 ≤ c.energy) (h2 : c.energy ≤ 11) :
    (c.step_maintenance g).1 =
      { kind := c.kind, activated := false, activation_odds := c.activation_odds,
        active_turns := 0, energy := c.energy - 1 } := by
  have he := c.activate_energy g
  have hk := c.activate_kind g
  have ho := c.activate_odds g
  unfold Cell.step_maintenance Cell.subtract_energy Cell.roll_for_deactivation
  dsimp only
  rw [if_pos (show (c.activate g).1.energy - 1 ≥ 0 by omega)]
  dsimp only
  rw [if_pos (show (c.activate g).1.energy - 1 ≤ 10 by omega)]
  rw [he, hk, ho]

/-- Claim C6 — `addEnergy(n)` sets `energy` to `energy + n` clamped above at
`100` (exactly `100` when `energy + n ≥ 100`), and `subtractEnergy(n)` sets it
to `energy - n` clamped below at `0` (exactly `0` when `energy - n < 0`); no
other attribute changes. -/
theorem claim_C6 (c : Cell) (n : ℤ) :
    c.add_energy n = { c with energy := min (c.energy + n) 100 } ∧
    c.subtract_energy n = { c with energy := max (c.energy - n) 0 } := by
  constructor
  · unfold Cell.add_energy
    split_ifs with h <;> simp only [Cell.mk.injEq, true_and] <;> omega
  · unfold Cell.subtract_energy
    split_ifs with h <;> simp only [Cell.mk.injEq, true_and] <;> omega

/-- Claim C4 — whenever the energy left after a tick's maintenance
`subtractEnergy(1)` is `≤ 10`, the `rollForDeactivation` of that same tick
forces `activated = false` and `active_turns = 0`, for every cell, prior
activation state and random draw; and this composition is exactly what
`stepMaintenance` runs. -/
theorem claim_C4 (c : Cell) (g : RNG)
    (h : (((c.activate g).1).subtract_energy 1).energy ≤ 10) :
    ((((c.activate g).1).subtract_energy 1).roll_for_deactivation.activated = false ∧
      (((c.activate g).1).subtract_energy 1).roll_for_deactivation.active_turns = 0) ∧
    (c.step_maintenance g).1 = (((c.activate g).1).subtract_energy 1).roll_for_deactivation := by
  refine ⟨?_, rfl⟩
  unfold Cell.roll_for_deactivation
  rw [if_pos h]
  exact ⟨rfl, rfl⟩

/-- Concrete random source used by the witnesses: every `r.random()` draw is
`1/2` and every `r.randint` draw is the lowest value. -/
def gV : RNG := { floats := fun _ => mkRat 1 2, nats := fun _ => 0, fidx := 0, nidx := 0 }

theorem claim_C4_witness :
    ((((Cell.init CellKind.neutral false).activate gV).1.subtract_energy 1).energy ≤ 10) ∧
    ((((Cell.init CellKind.neutral false).activate gV).1.subtract_energy
        1).roll_for_deactivation.activated = false ∧
      (((Cell.init CellKind.neutral false).activate gV).1.subtract_energy
        1).roll_for_deactivation.active_turns = 0) :=
  ⟨by decide, (claim_C4 (Cell.init CellKind.neutral false) gV (by decide)).1⟩

/-! ## Lemmas on the transfer loop and the Moore neighborhood -/

theorem transferLoop_getElem_of_not_mem (cells : List Cell) (g : RNG) (idxs : List ℕ)
    (f : Cell → ℤ → Cell) (j : ℕ) (hj : j ∉ idxs) :
    (transferLoop cells g idxs f).1[j]? = cells[j]? := by
  induction idxs generalizing cells g with
  | nil => rfl
  | cons i rest ih =>
    have hji : j ≠ i := fun e => hj (e ▸ List.mem_cons_self i rest)
    have hjr : j ∉ rest := fun e => hj (List.mem_cons_of_mem i e)
    rw [transferLoop]
    rw [ih _ _ hjr]
    rcases hcell : cells[i]? with _ | t
    · rfl
    · exact List.getElem?_set_ne hji.symm

theorem transferLoop_getElem_of_nodup (cells : List Cell) (g : RNG) (idxs : List ℕ)
    (f : Cell → ℤ → Cell) (hnd : idxs.Nodup) (m j : ℕ) (hm : idxs[m]? = some j) :
    (transferLoop cells g idxs f).1[j]? =
      (cells[j]?).map (fun t => f t (1 + (g.nats (g.nidx + m) : ℤ) % 5)) := by
  induction idxs generalizing cells g m with
  | nil => simp at hm
  | cons i rest ih =>
    rw [transferLoop]
    rcases m with _ | m
    · have hji : i = j := by simpa using hm
      subst hji
      have hnotrest : i ∉ rest := (List.nodup_cons.mp hnd).1
      rw [transferLoop_getElem_of_not_mem _ _ _ _ _ hnotrest]
      rcases hcell : cells[i]? with _ | t
      · simp [hcell]
      · have hlt : i < cells.length := by
          obtain ⟨hlt, -⟩ := List.getElem?_eq_some.mp hcell
          exact hlt
        rw [List.getElem?_set_self hlt]
        simp only [Option.map_some']
        norm_num [RNG.randint]
    · have hm' : rest[m]? = some j := by simpa using hm
      have hnd' := (List.nodup_cons.mp hnd).2
      have hji : i ≠ j := by
        intro e
        exact (List.nodup_cons.mp hnd).1 (e ▸ List.getElem?_mem hm')
      have harith : g.nidx + 1 + m = g.nidx + (m + 1) := by omega
      rcases hcell : cells[i]? with _ | t
      · rw [ih _ _ hnd' m hm']
        simp [RNG.randint, harith]
      · rw [ih _ _ hnd' m hm', List.getElem?_set_ne hji]
        simp [RNG.randint, harith]

/-- Decomposition key for scheduler indices: with `b, d < h`,
`a * h + b = c * h + d` forces `a = c` and `b = d`. -/
theorem mul_add_lt_inj {h a b c d : ℕ} (hb : b < h) (hd : d < h)
    (he : a * h + b = c * h + d) : a = c ∧ b = d := by
  have hpos : 0 < h := Nat.lt_of_le_of_lt (Nat.zero_le b) hb
  have e1 : (a * h + b) / h = a := by
    rw [Nat.mul_comm, Nat.mul_add_div hpos, Nat.div_eq_of_lt hb, Nat.add_zero]
  have e2 : (c * h + d) / h = c := by
    rw [Nat.mul_comm, Nat.mul_add_div hpos, Nat.div_eq_of_lt hd, Nat.add_zero]
  have hac : a = c := by rw [← e1, ← e2, he]
  subst hac
  exact ⟨rfl, Nat.add_left_cancel he⟩

theorem neighborIndices_nodup (w h x y : ℕ) : (neighborIndices w h x y).Nodup := by
  unfold neighborIndices
  apply List.Nodup.filterMap
  · intro a a' b hb hb'
    dsimp only at hb hb'
    by_cases ha : (0 ≤ (x : ℤ) + a.1 ∧ (x : ℤ) + a.1 < (w : ℤ) ∧
        0 ≤ (y : ℤ) + a.2 ∧ (y : ℤ) + a.2 < (h : ℤ))
    swap
    · rw [if_neg ha] at hb; simp at hb
    by_cases ha' : (0 ≤ (x : ℤ) + a'.1 ∧ (x : ℤ) + a'.1 < (w : ℤ) ∧
        0 ≤ (y : ℤ) + a'.2 ∧ (y : ℤ) + a'.2 < (h : ℤ))
    swap
    · rw [if_neg ha'] at hb'; simp at hb'
    rw [if_pos ha] at hb
    rw [if_pos ha'] at hb'
    simp only [Option.mem_def, Option.some.injEq] at hb hb'
    obtain ⟨ha1, ha2, ha3, ha4⟩ := ha
    obtain ⟨ha1', ha2', ha3', ha4'⟩ := ha'
    have hyb : ((y : ℤ) + a.2).toNat < h := by omega
    have hyb' : ((y : ℤ) + a'.2).toNat < h := by omega
    obtain ⟨hx2, hy2⟩ := mul_add_lt_inj hyb hyb' (hb.trans hb'.symm)
    rcases a with ⟨a1, a2⟩
    rcases a' with ⟨a1', a2'⟩
    simp only at ha1 ha2 ha3 ha4 ha1' ha2' ha3' ha4' hx2 hy2
    have : a1 = a1' := by omega
    have : a2 = a2' := by omega
    simp_all
  · decide

theorem self_not_mem_neighborIndices (w h i : ℕ) :
    i ∉ neighborIndices w h (i / h) (i % h) := by
  intro hmem
  unfold neighborIndices at hmem
  rw [List.mem_filterMap] at hmem
  obtain ⟨o, ho, hsome⟩ := hmem
  dsimp only at hsome
  by_cases hcond : (0 ≤ ((i / h : ℕ) : ℤ) + o.1 ∧ ((i / h : ℕ) : ℤ) + o.1 < (w : ℤ) ∧
      0 ≤ ((i % h : ℕ) : ℤ) + o.2 ∧ ((i % h : ℕ) : ℤ) + o.2 < (h : ℤ))
  swap
  · rw [if_neg hcond] at hsome; simp at hsome
  rw [if_pos hcond] at hsome
  obtain ⟨h1, h2, h3, h4⟩ := hcond
  have hpos : 0 < h := by omega
  have hsplit : i = (i / h) * h + i % h := by
    rw [Nat.mul_comm]
    exact (Nat.div_add_mod i h).symm
  have heq : (i / h) * h + i % h = (((i / h : ℕ) : ℤ) + o.1).toNat * h +
      (((i % h : ℕ) : ℤ) + o.2).toNat := by
    rw [← hsplit]
    exact (Option.some.inj hsome).symm
  have hmod : i % h < h := Nat.mod_lt _ hpos
  have hyb : ((((i % h : ℕ) : ℤ)) + o.2).toNat < h := by omega
  obtain ⟨hx2, hy2⟩ := mul_add_lt_inj hmod hyb heq
  have ho1 : o.1 = 0 := by omega
  have ho2 : o.2 = 0 := by omega
  have hoz : o = ((0 : ℤ), (0 : ℤ)) := by
    rcases o with ⟨o1, o2⟩
    simp only at ho1 ho2
    rw [ho1, ho2]
  subst hoz
  revert ho
  decide

/-! ## Shape lemmas for a single agent's `step()` -/

theorem stepAgent_neutral_shape (w h : ℕ) (cells : List Cell) (g : RNG) (i : ℕ) (c : Cell)
    (hc : cells[i]? = some c) (hkind : c.kind = CellKind.neutral) :
    stepAgent w h cells g i = (cells.set i (c.step_maintenance g).1, (c.step_maintenance g).2) := by
  have hmk := c.step_maintenance_kind g
  rw [hkind] at hmk
  unfold stepAgent
  rw [hc]
  dsimp only
  rw [hmk]

theorem stepAgent_producer_push (w h : ℕ) (cells : List Cell) (g : RNG) (i : ℕ) (c : Cell)
    (hc : cells[i]? = some c) (hkind : c.kind = CellKind.producer)
    (hcond : (c.step_maintenance g).1.activated = true ∧
      (c.step_maintenance g).1.active_turns ≤ 15) :
    stepAgent w h cells g i =
      transferLoop (cells.set i (c.step_maintenance g).1) (c.step_maintenance g).2
        (neighborIndices w h (i / h) (i % h)) (fun t k => t.add_energy k) := by
  have hmk := c.step_maintenance_kind g
  rw [hkind] at hmk
  unfold stepAgent
  rw [hc]
  dsimp only
  rw [hmk]
  dsimp only
  rw [if_pos hcond]

theorem stepAgent_producer_nopush (w h : ℕ) (cells : List Cell) (g : RNG) (i : ℕ) (c : Cell)
    (hc : cells[i]? = some c) (hkind : c.kind = CellKind.producer)
    (hcond : ¬ ((c.step_maintenance g).1.activated = true ∧
      (c.step_maintenance g).1.active_turns ≤ 15)) :
    stepAgent w h cells g i = (cells.set i (c.step_maintenance g).1, (c.step_maintenance g).2) := by
  have hmk := c.step_maintenance_kind g
  rw [hkind] at hmk
  unfold stepAgent
  rw [hc]
  dsimp only
  rw [hmk]
  dsimp only
  rw [if_neg hcond]

theorem stepAgent_consumer_drain (w h : ℕ) (cells : List Cell) (g : RNG) (i : ℕ) (c : Cell)
    (hc : cells[i]? = some c) (hkind : c.kind = CellKind.consumer)
    (hcond : (c.step_maintenance g).1.activated = true ∧
      (c.step_maintenance g).1.active_turns > 5) :
    stepAgent w h cells g i =
      transferLoop (cells.set i (c.step_maintenance g).1) (c.step_maintenance g).2
        (neighborIndices w h (i / h) (i % h)) (fun t k => t.subtract_energy k) := by
  have hmk := c.step_maintenance_kind g
  rw [hkind] at hmk
  unfold stepAgent
  rw [hc]
  dsimp only
  rw [hmk]
  dsimp only
  rw [if_pos hcond]

theorem stepAgent_consumer_nodrain (w h : ℕ) (cells : List Cell) (g : RNG) (i : ℕ) (c : Cell)
    (hc : cells[i]? = some c) (hkind : c.kind = CellKind.consumer)
    (hcond : ¬ ((c.step_maintenance g).1.activated = true ∧
      (c.step_maintenance g).1.active_turns > 5)) :
    stepAgent w h cells g i = (cells.set i (c.step_maintenance g).1, (c.step_maintenance g).2) := by
  have hmk := c.step_maintenance_kind g
  rw [hkind] at hmk
  unfold stepAgent
  rw [hc]
  dsimp only
  rw [hmk]
  dsimp only
  rw [if_neg hcond]

theorem Cell.step_maintenance_turns (c : Cell) (g : RNG) :
    (c.step_maintenance g).1.active_turns = (c.activate g).1.active_turns ∨
      (c.step_maintenance g).1.active_turns = 0 := by
  unfold Cell.step_maintenance Cell.subtract_energy Cell.roll_for_deactivation
  dsimp only
  split_ifs <;> simp

theorem Cell.step_maintenance_energy_gt_of_activated (c : Cell) (g : RNG)
    (h : (c.step_maintenance g).1.activated = true) :
    (c.step_maintenance g).1.energy > 10 := by
  unfold Cell.step_maintenance Cell.roll_for_deactivation at h ⊢
  dsimp only at h ⊢
  split_ifs at h ⊢ with hle
  omega

/-- Claim C2 — a Producer's `step()` first runs `stepMaintenance` and then
pushes energy exactly when the maintained state has `activated = true` and
`active_turns ≤ 15`: in that case every in-bounds Moore neighbor (the `m`-th
entry of the neighbor list, independently per neighbor) receives one
`addEnergy(k)` with `k ∈ [1, 5]`; otherwise — in particular with
`active_turns = 16` — no other cell is touched; with `active_turns = 15`
every neighbor is pushed. -/
theorem claim_C2 (w h : ℕ) (cells : List Cell) (g : RNG) (i : ℕ) (c : Cell)
    (hc : cells[i]? = some c) (hkind : c.kind = CellKind.producer) :
    ((stepAgent w h cells g i).1[i]? = some (c.step_maintenance g).1) ∧
    (((c.step_maintenance g).1.activated = true ∧
        (c.step_maintenance g).1.active_turns ≤ 15) →
      ∀ (m j : ℕ), (neighborIndices w h (i / h) (i % h))[m]? = some j →
        ∃ k : ℤ, 1 ≤ k ∧ k ≤ 5 ∧
          (stepAgent w h cells g i).1[j]? = (cells[j]?).map (fun t => t.add_energy k)) ∧
    (¬ ((c.step_maintenance g).1.activated = true ∧
        (c.step_maintenance g).1.active_turns ≤ 15) →
      ∀ j, j ≠ i → (stepAgent w h cells g i).1[j]? = cells[j]?) := by
  obtain ⟨hilt, -⟩ := List.getElem?_eq_some.mp hc
  have hnin := self_not_mem_neighborIndices w h i
  by_cases hcond : ((c.step_maintenance g).1.activated = true ∧
      (c.step_maintenance g).1.active_turns ≤ 15)
  · rw [stepAgent_producer_push w h cells g i c hc hkind hcond]
    refine ⟨?_, fun _ m j hj => ?_, fun hn => absurd hcond hn⟩
    · rw [transferLoop_getElem_of_not_mem _ _ _ _ _ hnin,
        List.getElem?_set_self hilt]
    · have hji : j ≠ i := by
        intro e
        rw [e] at hj
        exact hnin (List.getElem?_mem hj)
      refine ⟨1 + ((c.step_maintenance g).2.nats ((c.step_maintenance g).2.nidx + m) : ℤ) % 5,
        by omega, by omega, ?_⟩
      rw [transferLoop_getElem_of_nodup _ _ _ _
          (neighborIndices_nodup w h (i / h) (i % h)) m j hj,
        List.getElem?_set_ne (Ne.symm hji)]
  · rw [stepAgent_producer_nopush w h cells g i c hc hkind hcond]
    refine ⟨?_, fun hcc => absurd hcc hcond, fun _ j hji => ?_⟩
    · exact List.getElem?_set_self hilt
    · exact List.getElem?_set_ne (fun e => hji e.symm)

theorem claim_C2_witness :
    ((stepAgent 2 1 [Cell.init CellKind.producer true, Cell.init CellKind.neutral false]
        gV 0).1[0]? = some ((Cell.init CellKind.producer true).step_maintenance gV).1) ∧
    (∃ k : ℤ, 1 ≤ k ∧ k ≤ 5 ∧
      (stepAgent 2 1 [Cell.init CellKind.producer true, Cell.init CellKind.neutral false]
          gV 0).1[1]? =
        (([Cell.init CellKind.producer true, Cell.init CellKind.neutral false] :
          List Cell)[1]?).map (fun t => t.add_energy k)) :=
  ⟨(claim_C2 2 1 [Cell.init CellKind.producer true, Cell.init CellKind.neutral false]
      gV 0 (Cell.init CellKind.producer true) rfl rfl).1,
   (claim_C2 2 1 [Cell.init CellKind.producer true, Cell.init CellKind.neutral false]
      gV 0 (Cell.init CellKind.producer true) rfl rfl).2.1 (by decide) 0 1 (by decide)⟩

/-- Claim C3 — a Consumer's `step()` first runs `stepMaintenance` and then
drains energy exactly when the maintained state has `activated = true` and
`active_turns > 5`: in that case every in-bounds Moore neighbor receives one
`subtractEnergy(k)` with `k ∈ [1, 5]` drawn independently per neighbor;
otherwise — in particular with `active_turns = 5` — no other cell is touched;
with `active_turns = 6` every neighbor is drained. -/
theorem claim_C3 (w h : ℕ) (cells : List Cell) (g : RNG) (i : ℕ) (c : Cell)
    (hc : cells[i]? = some c) (hkind : c.kind = CellKind.consumer) :
    ((stepAgent w h cells g i).1[i]? = some (c.step_maintenance g).1) ∧
    (((c.step_maintenance g).1.activated = true ∧
        (c.step_maintenance g).1.active_turns > 5) →
      ∀ (m j : ℕ), (neighborIndices w h (i / h) (i % h))[m]? = some j →
        ∃ k : ℤ, 1 ≤ k ∧ k ≤ 5 ∧
          (stepAgent w h cells g i).1[j]? =
            (cells[j]?).map (fun t => t.subtract_energy k)) ∧
    (¬ ((c.step_maintenance g).1.activated = true ∧
        (c.step_maintenance g).1.active_turns > 5) →
      ∀ j, j ≠ i → (stepAgent w h cells g i).1[j]? = cells[j]?) := by
  obtain ⟨hilt, -⟩ := List.getElem?_eq_some.mp hc
  have hnin := self_not_mem_neighborIndices w h i
  by_cases hcond : ((c.step_maintenance g).1.activated = true ∧
      (c.step_maintenance g).1.active_turns > 5)
  · rw [stepAgent_consumer_drain w h cells g i c hc hkind hcond]
    refine ⟨?_, fun _ m j hj => ?_, fun hn => absurd hcond hn⟩
    · rw [transferLoop_getElem_of_not_mem _ _ _ _ _ hnin,
        List.getElem?_set_self hilt]
    · have hji : j ≠ i := by
        intro e
        rw [e] at hj
        exact hnin (List.getElem?_mem hj)
      refine ⟨1 + ((c.step_maintenance g).2.nats ((c.step_maintenance g).2.nidx + m) : ℤ) % 5,
        by omega, by omega, ?_⟩
      rw [transferLoop_getElem_of_nodup _ _ _ _
          (neighborIndices_nodup w h (i / h) (i % h)) m j hj,
        List.getElem?_set_ne (Ne.symm hji)]
  · rw [stepAgent_consumer_nodrain w h cells g i c hc hkind hcond]
    refine ⟨?_, fun hcc => absurd hcc hcond, fun _ j hji => ?_⟩
    · exact List.getElem?_set_self hilt
    · exact List.getElem?_set_ne (fun e => hji e.symm)

/-- Consumer that has already been active for 6 turns, used as a witness. -/
def cAct6 : Cell :=
  { kind := CellKind.consumer, activated := true, activation_odds := mkRat 1 2,
    active_turns := 6, energy := 20 }

theorem claim_C3_witness :
    ((stepAgent 2 1 [cAct6, Cell.init CellKind.neutral false] gV 0).1[0]? =
      some (cAct6.step_maintenance gV).1) ∧
    (∃ k : ℤ, 1 ≤ k ∧ k ≤ 5 ∧
      (stepAgent 2 1 [cAct6, Cell.init CellKind.neutral false] gV 0).1[1]? =
        (([cAct6, Cell.init CellKind.neutral false] :
          List Cell)[1]?).map (fun t => t.subtract_energy k)) :=
  ⟨(claim_C3 2 1 [cAct6, Cell.init CellKind.neutral false] gV 0 cAct6 rfl rfl).1,
   (claim_C3 2 1 [cAct6, Cell.init CellKind.neutral false] gV 0 cAct6 rfl rfl).2.1
      (by decide) 0 1 (by decide)⟩

/-- Claim C9 — in `activate()` the `active_turns` increment happens before the
activation roll, so a cell that was not activated keeps `active_turns`
unchanged (`0`) through `activate()`; hence a Producer that becomes activated
during its tick (so that it survives the decay with energy `> 10`) pushes to
all its Moore neighbors in that same tick, while a Consumer never drains on
its activation tick. -/
theorem claim_C9 (w h : ℕ) (cells : List Cell) (g : RNG) (i : ℕ) (c : Cell)
    (hc : cells[i]? = some c) (hact : c.activated = false) (hturns : c.active_turns = 0) :
    ((c.activate g).1.active_turns = 0) ∧
    (c.kind = CellKind.producer → (c.step_maintenance g).1.activated = true →
      ((c.step_maintenance g).1.energy > 10 ∧
        ∀ (m j : ℕ), (neighborIndices w h (i / h) (i % h))[m]? = some j →
          ∃ k : ℤ, 1 ≤ k ∧ k ≤ 5 ∧
            (stepAgent w h cells g i).1[j]? =
              (cells[j]?).map (fun t => t.add_energy k))) ∧
    (c.kind = CellKind.consumer →
      ∀ j, j ≠ i → (stepAgent w h cells g i).1[j]? = cells[j]?) := by
  have hnin := self_not_mem_neighborIndices w h i
  have hmturns : (c.step_maintenance g).1.active_turns = 0 := by
    rcases c.step_maintenance_turns g with h1 | h1
    · rw [h1, Cell.activate_turns_of_not_activated c g hact, hturns]
    · exact h1
  refine ⟨?_, fun hkind hmact => ?_, fun hkind => ?_⟩
  · rw [Cell.activate_turns_of_not_activated c g hact, hturns]
  · refine ⟨c.step_maintenance_energy_gt_of_activated g hmact, ?_⟩
    have hcond : (c.step_maintenance g).1.activated = true ∧
        (c.step_maintenance g).1.active_turns ≤ 15 := ⟨hmact, by omega⟩
    rw [stepAgent_producer_push w h cells g i c hc hkind hcond]
    intro m j hj
    have hji : j ≠ i := by
      intro e
      rw [e] at hj
      exact hnin (List.getElem?_mem hj)
    refine ⟨1 + ((c.step_maintenance g).2.nats ((c.step_maintenance g).2.nidx + m) : ℤ) % 5,
      by omega, by omega, ?_⟩
    rw [transferLoop_getElem_of_nodup _ _ _ _
        (neighborIndices_nodup w h (i / h) (i % h)) m j hj,
      List.getElem?_set_ne (Ne.symm hji)]
  · have hncond : ¬ ((c.step_maintenance g).1.activated = true ∧
        (c.step_maintenance g).1.active_turns > 5) := by
      rintro ⟨-, hgt⟩
      omega
    rw [stepAgent_consumer_nodrain w h cells g i c hc hkind hncond]
    intro j hji
    exact List.getElem?_set_ne (fun e => hji e.symm)

/-- Producer that is not yet activated but holds enough energy to pass the
activation threshold, used as a witness. -/
def pDormant : Cell :=
  { kind := CellKind.producer, activated := false, activation_odds := mkRat 1 2,
    active_turns := 0, energy := 20 }

theorem claim_C9_witness :
    ((pDormant.activate gV).1.active_turns = 0) ∧
    (∃ k : ℤ, 1 ≤ k ∧ k ≤ 5 ∧
      (stepAgent 2 1 [pDormant, Cell.init CellKind.neutral false] gV 0).1[1]? =
        (([pDormant, Cell.init CellKind.neutral false] :
          List Cell)[1]?).map (fun t => t.add_energy k)) :=
  ⟨(claim_C9 2 1 [pDormant, Cell.init CellKind.neutral false] gV 0 pDormant rfl rfl rfl).1,
   ((claim_C9 2 1 [pDormant, Cell.init CellKind.neutral false] gV 0 pDormant rfl rfl rfl).2.1
      rfl (by decide)).2 0 1 (by decide)⟩

/-- Claim C10 — a cell of any kind whose own step begins with `energy = 11`
ends that step with `energy = 10`, `activated = false`, `active_turns = 0`
(the decay to `10` forces deactivation even if the activation roll
succeeded), and transfers no energy to any other cell that tick. -/
theorem claim_C10 (w h : ℕ) (cells : List Cell) (g : RNG) (i : ℕ) (c : Cell)
    (hc : cells[i]? = some c) (he : c.energy = 11) :
    (((stepAgent w h cells g i).1[i]?).map
        (fun c' => (c'.energy, c'.activated, c'.active_turns)) =
      some ((10 : ℤ), false, (0 : ℕ))) ∧
    (∀ j, j ≠ i → (stepAgent w h cells g i).1[j]? = cells[j]?) := by
  obtain ⟨hilt, -⟩ := List.getElem?_eq_some.mp hc
  have hmd := c.step_maintenance_deactivates g (by omega) (by omega)
  have hshape : stepAgent w h cells g i =
      (cells.set i (c.step_maintenance g).1, (c.step_maintenance g).2) := by
    cases hk : c.kind
    case neutral => exact stepAgent_neutral_shape w h cells g i c hc hk
    case producer =>
      exact stepAgent_producer_nopush w h cells g i c hc hk (by rw [hmd]; simp)
    case consumer =>
      exact stepAgent_consumer_nodrain w h cells g i c hc hk (by rw [hmd]; simp)
  rw [hshape]
  constructor
  · dsimp only
    rw [List.getElem?_set_self hilt, hmd]
    simp [he]
  · intro j hji
    exact List.getElem?_set_ne (fun e => hji e.symm)

/-- Neutral cell with exactly `11` energy, used as a witness. -/
def cE11 : Cell :=
  { kind := CellKind.neutral, activated := false, activation_odds := mkRat 1 2,
    active_turns := 0, energy := 11 }

theorem claim_C10_witness :
    ((stepAgent 1 1 [cE11] gV 0).1[0]?).map
        (fun c' => (c'.energy, c'.activated, c'.active_turns)) =
      some ((10 : ℤ), false, (0 : ℕ)) :=
  (claim_C10 1 1 [cE11] gV 0 cE11 rfl rfl).1

/-! ## Energy bounds invariant (claim C5) -/

/-- Energy of a cell lies within the documented `[0, 100]` band. -/
def CellOK (c : Cell) : Prop := 0 ≤ c.energy ∧ c.energy ≤ 100

theorem cellOK_add_energy {c : Cell} (hc : CellOK c) {n : ℤ} (hn : 0 ≤ n) :
    CellOK (c.add_energy n) := by
  obtain ⟨h0, h1⟩ := hc
  unfold Cell.add_energy CellOK
  split_ifs with hlt <;> dsimp only <;> omega

theorem cellOK_subtract_energy {c : Cell} (hc : CellOK c) {n : ℤ} (hn : 0 ≤ n) :
    CellOK (c.subtract_energy n) := by
  obtain ⟨h0, h1⟩ := hc
  unfold Cell.subtract_energy CellOK
  split_ifs with hge <;> dsimp only <;> omega

theorem cellOK_step_maintenance {c : Cell} (hc : CellOK c) (g : RNG) :
    CellOK (c.step_maintenance g).1 := by
  obtain ⟨h0, h1⟩ := hc
  have he := c.activate_energy g
  unfold Cell.step_maintenance Cell.subtract_energy Cell.roll_for_deactivation CellOK
  dsimp only
  split_ifs <;> dsimp only <;> omega

theorem cellOK_transferLoop (cells : List Cell) (g : RNG) (idxs : List ℕ)
    (f : Cell → ℤ → Cell)
    (hf : ∀ (c : Cell) (k : ℤ), CellOK c → 1 ≤ k → k ≤ 5 → CellOK (f c k))
    (hc : ∀ c ∈ cells, CellOK c) :
    ∀ c ∈ (transferLoop cells g idxs f).1, CellOK c := by
  induction idxs generalizing cells g with
  | nil => exact hc
  | cons j rest ih =>
    rw [transferLoop]
    apply ih
    rcases hcell : cells[j]? with _ | t
    · exact hc
    · intro c hcm
      rcases List.mem_or_eq_of_mem_set hcm with hmem | heq
      · exact hc c hmem
      · subst heq
        refine hf t _ (hc t (List.getElem?_mem hcell)) ?_ ?_ <;>
          · unfold RNG.randint
            dsimp only
            omega

theorem cellOK_stepAgent (w h : ℕ) (cells : List Cell) (g : RNG) (i : ℕ)
    (hc : ∀ c ∈ cells, CellOK c) :
    ∀ c ∈ (stepAgent w h cells g i).1, CellOK c := by
  unfold stepAgent
  rcases hcell : cells[i]? with _ | c0
  · exact hc
  · dsimp only
    have hm : CellOK (c0.step_maintenance g).1 :=
      cellOK_step_maintenance (hc c0 (List.getElem?_mem hcell)) g
    have hset : ∀ c ∈ cells.set i (c0.step_maintenance g).1, CellOK c := by
      intro c hcm
      rcases List.mem_or_eq_of_mem_set hcm with hmem | heq
      · exact hc c hmem
      · subst heq
        exact hm
    split
    · exact hset
    · split_ifs
      · exact cellOK_transferLoop _ _ _ _
          (fun c k hck h1 h5 => cellOK_add_energy hck (by omega)) hset
      · exact hset
    · split_ifs
      · exact cellOK_transferLoop _ _ _ _
          (fun c k hck h1 h5 => cellOK_subtract_energy hck (by omega)) hset
      · exact hset

theorem cellOK_foldSteps (w h : ℕ) (is : List ℕ) (cells : List Cell) (g : RNG)
    (hc : ∀ c ∈ cells, CellOK c) :
    ∀ c ∈ (is.foldl (fun p i => stepAgent w h p.1 p.2 i) (cells, g)).1, CellOK c := by
  induction is generalizing cells g with
  | nil => exact hc
  | cons i rest ih =>
    rw [List.foldl_cons]
    exact ih (stepAgent w h cells g i).1 (stepAgent w h cells g i).2
      (cellOK_stepAgent w h cells g i hc)

theorem cellOK_dish_step (d : PetriDish) (g : RNG)
    (hc : ∀ c ∈ d.cells, CellOK c) :
    ∀ c ∈ (d.step g).1.cells, CellOK c := by
  unfold PetriDish.step
  dsimp only
  exact cellOK_foldSteps _ _ _ _ _ hc

theorem cellOK_dish_stepN (d : PetriDish) (g : RNG) (n : ℕ)
    (hc : ∀ c ∈ d.cells, CellOK c) :
    ∀ c ∈ (stepN d g n).1.cells, CellOK c := by
  induction n generalizing d g with
  | zero => exact hc
  | succ n ih =>
    rw [stepN]
    exact ih (d.step g).1 (d.step g).2 (cellOK_dish_step d g hc)

theorem cellOK_init (k : CellKind) (b : Bool) : CellOK (Cell.init k b) := by
  unfold Cell.init CellOK
  dsimp only
  split_ifs <;> omega

theorem placeCells_ok (center : ℕ × ℕ) (pp pc : ℚ) (ps : List (ℕ × ℕ)) (g : RNG) :
    ∀ c ∈ (placeCells center pp pc ps g).1, CellOK c := by
  induction ps generalizing g with
  | nil => intro c hcm; simp [placeCells] at hcm
  | cons p rest ih =>
    intro c hcm
    rw [placeCells] at hcm
    rcases List.mem_cons.mp hcm with heq | hmem
    · subst heq
      split_ifs <;> exact cellOK_init _ _
    · exact ih _ c hmem

/-- Observation point inside a tick: the scheduler pass stopped after its
first `k` agents (with `k` at least the number of agents this is the full
tick). -/
def stepPrefix (d : PetriDish) (g : RNG) (k : ℕ) : List Cell × RNG :=
  ((List.range d.cells.length).take k).foldl
    (fun p i => stepAgent d.width d.height p.1 p.2 i) (d.cells, g)

/-- Claim C5 — from construction through any number of ticks and at every
agent boundary inside the following tick, every cell's energy stays an
integer in `[0, 100]`. -/
theorem claim_C5 (w h : ℕ) (pp pc : ℚ) (g : RNG) (n k : ℕ) :
    ∀ c ∈ (stepPrefix
        (stepN (PetriDish.init w h pp pc g).1 (PetriDish.init w h pp pc g).2 n).1
        (stepN (PetriDish.init w h pp pc g).1 (PetriDish.init w h pp pc g).2 n).2 k).1,
      0 ≤ c.energy ∧ c.energy ≤ 100 := by
  have hinit : ∀ c ∈ (PetriDish.init w h pp pc g).1.cells, CellOK c := by
    unfold PetriDish.init
    dsimp only
    exact placeCells_ok _ _ _ _ _
  have hn := cellOK_dish_stepN (PetriDish.init w h pp pc g).1
    (PetriDish.init w h pp pc g).2 n hinit
  unfold stepPrefix
  exact cellOK_foldSteps _ _ _ _ _ hn

/-- State of the single cell of a `1 × 1` dish after one tick, used as a
witness. -/
def cLone : Cell :=
  { kind := CellKind.producer, activated := true, activation_odds := mkRat 1 2,
    active_turns := 1, energy := 19 }

theorem claim_C5_witness : (0 : ℤ) ≤ cLone.energy ∧ cLone.energy ≤ 100 :=
  claim_C5 1 1 0 0 gV 1 0 cLone (by decide)

/-! ## Construction characterization (claim C7) -/

theorem placeCells_spec (center : ℕ × ℕ) (pp pc : ℚ) (ps : List (ℕ × ℕ)) (g : RNG) :
    ((placeCells center pp pc ps g).1.length = ps.length) ∧
    ((placeCells center pp pc ps g).2.floats = g.floats) ∧
    ((placeCells center pp pc ps g).2.nats = g.nats) ∧
    ((placeCells center pp pc ps g).2.fidx = g.fidx + ps.length) ∧
    ((placeCells center pp pc ps g).2.nidx = g.nidx) ∧
    (∀ (n : ℕ) (p : ℕ × ℕ), ps[n]? = some p →
      (placeCells center pp pc ps g).1[n]? = some (
        if p = center then Cell.init CellKind.producer true
        else if g.floats (g.fidx + n) ≤ pp then Cell.init CellKind.producer false
        else if g.floats (g.fidx + n) ≤ pp + pc then Cell.init CellKind.consumer false
        else Cell.init CellKind.neutral false)) := by
  induction ps generalizing g with
  | nil =>
    refine ⟨rfl, rfl, rfl, rfl, rfl, ?_⟩
    intro n p hp
    simp at hp
  | cons p rest ih =>
    obtain ⟨ih1, ih2, ih3, ih4, ih5, ih6⟩ := ih { g with fidx := g.fidx + 1 }
    dsimp only at ih2 ih3 ih4 ih5 ih6
    rw [placeCells]
    unfold RNG.random
    dsimp only
    refine ⟨?_, ?_, ?_, ?_, ?_, ?_⟩
    · rw [List.length_cons, ih1, List.length_cons]
    · exact ih2
    · exact ih3
    · rw [List.length_cons, ih4]
      omega
    · exact ih5
    · intro n q hq
      rcases n with _ | n
      · have hpq : p = q := by simpa using hq
        subst hpq
        rw [List.getElem?_cons_zero]
        norm_num
      · have hq' : rest[n]? = some q := by simpa using hq
        rw [List.getElem?_cons_succ, ih6 n q hq']
        have harith : g.fidx + 1 + n = g.fidx + (n + 1) := by omega
        rw [harith]

theorem positions_length (w h : ℕ) : (positions w h).length = w * h := by
  induction w with
  | zero => simp [positions]
  | succ w ih =>
    unfold positions at ih ⊢
    rw [List.range_succ, List.flatMap_append, List.length_append, ih]
    simp [Nat.succ_mul]

theorem positions_succ (w h : ℕ) :
    positions (w + 1) h = positions w h ++ (List.range h).map (fun y => (w, y)) := by
  unfold positions
  rw [List.range_succ, List.flatMap_append]
  simp

theorem positions_getElem (w h x y : ℕ) (hx : x < w) (hy : y < h) :
    (positions w h)[x * h + y]? = some (x, y) := by
  induction w with
  | zero => exact absurd hx (Nat.not_lt_zero x)
  | succ w ih =>
    rcases Nat.lt_or_ge x w with hlt | hge
    · have hb : x * h + y < w * h := by
        have h1 : x * h + y < (x + 1) * h := by
          rw [Nat.succ_mul]
          omega
        have h2 : (x + 1) * h ≤ w * h := Nat.mul_le_mul_right h hlt
        omega
      rw [positions_succ, List.getElem?_append_left (by rw [positions_length]; exact hb)]
      exact ih hlt
    · have hxw : x = w := by omega
      subst hxw
      rw [positions_succ,
        List.getElem?_append_right (by rw [positions_length]; omega)]
      rw [positions_length]
      have hidx : x * h + y - x * h = y := by omega
      rw [hidx, List.getElem?_map, List.getElem?_range hy]
      rfl

/-- Claim C7 — `PetriDish` construction visits the positions `x` outer, `y`
inner (position `(x, y)` is the `x*h + y`-th cell appended to the scheduler),
draws exactly one uniform roll per position, forces the single pre-activated
initial-activator Producer (activated, energy `20`, `active_turns = 0`) at
`(⌊w/2⌋, ⌊h/2⌋)` regardless of that position's roll, and elsewhere places a
Producer when `roll ≤ pp`, else a Consumer when `roll ≤ pp + pc`, else a
neutral cell (not activated, energy `5`). -/
theorem claim_C7 (w h : ℕ) (pp pc : ℚ) (g : RNG) (x y : ℕ) (hx : x < w) (hy : y < h) :
    ((PetriDish.init w h pp pc g).1.cells.length = w * h) ∧
    ((PetriDish.init w h pp pc g).1.cells[x * h + y]? = some (
      if (x, y) = (w / 2, h / 2) then Cell.init CellKind.producer true
      else if g.floats (g.fidx + (x * h + y)) ≤ pp then Cell.init CellKind.producer false
      else if g.floats (g.fidx + (x * h + y)) ≤ pp + pc then Cell.init CellKind.consumer false
      else Cell.init CellKind.neutral false)) ∧
    ((PetriDish.init w h pp pc g).2.fidx = g.fidx + w * h) ∧
    ((PetriDish.init w h pp pc g).2.nidx = g.nidx) ∧
    ((Cell.init CellKind.producer true).activated = true ∧
      (Cell.init CellKind.producer true).energy = 20 ∧
      (Cell.init CellKind.producer true).active_turns = 0) ∧
    ((Cell.init CellKind.neutral false).activated = false ∧
      (Cell.init CellKind.neutral false).energy = 5) := by
  obtain ⟨l1, -, -, l4, l5, l6⟩ := placeCells_spec (w / 2, h / 2) pp pc (positions w h) g
  unfold PetriDish.init
  dsimp only
  refine ⟨?_, ?_, ?_, l5, ⟨rfl, rfl, rfl⟩, ⟨rfl, rfl⟩⟩
  · rw [l1, positions_length]
  · exact l6 (x * h + y) (x, y) (positions_getElem w h x y hx hy)
  · rw [l4, positions_length]

theorem claim_C7_witness :
    ((PetriDish.init 1 1 0 0 gV).1.cells.length = 1 * 1) ∧
    ((PetriDish.init 1 1 0 0 gV).1.cells[0 * 1 + 0]? = some (
      if ((0 : ℕ), (0 : ℕ)) = (1 / 2, 1 / 2) then Cell.init CellKind.producer true
      else if gV.floats (gV.fidx + (0 * 1 + 0)) ≤ 0 then Cell.init CellKind.producer false
      else if gV.floats (gV.fidx + (0 * 1 + 0)) ≤ 0 + 0 then Cell.init CellKind.consumer false
      else Cell.init CellKind.neutral false)) :=
  ⟨(claim_C7 1 1 0 0 gV 0 0 (by decide) (by decide)).1,
   (claim_C7 1 1 0 0 gV 0 0 (by decide) (by decide)).2.1⟩

/-! ## Determinism (claim C8) -/

/-- Claim C8 — the simulation is deterministic given its random stream: two
runs of `n` ticks from equal initial grids that consume equal streams of
draws end in equal grid states (the embedding threads the shared random
source explicitly, so a run is a function of the initial dish and the
stream). -/
theorem claim_C8 (d1 d2 : PetriDish) (g1 g2 : RNG) (n : ℕ)
    (hd : d1 = d2) (hg : g1 = g2) :
    stepN d1 g1 n = stepN d2 g2 n := by
  subst hd
  subst hg
  rfl

theorem claim_C8_witness :
    stepN (PetriDish.init 2 2 0 0 gV).1 (PetriDish.init 2 2 0 0 gV).2 2 =
      stepN (PetriDish.init 2 2 0 0 gV).1 (PetriDish.init 2 2 0 0 gV).2 2 :=
  claim_C8 _ _ _ _ 2 rfl rfl

/-! ## The 5×5 end-to-end scenario (claim C1) -/

theorem activate_rng_of_low (c : Cell) (g : RNG) (h : c.energy ≤ 10) :
    (c.activate g).2 = g := by
  unfold Cell.activate
  dsimp only
  by_cases h1 : c.activated = true
  · rw [if_pos h1, if_neg (by dsimp only; omega)]
  · rw [if_neg h1, if_neg (by omega)]

theorem step_maintenance_rng_of_low (c : Cell) (g : RNG) (h : c.energy ≤ 10) :
    (c.step_maintenance g).2 = g := by
  unfold Cell.step_maintenance
  dsimp only
  exact activate_rng_of_low c g h

/-- Result of one maintenance pass on a plain low-energy cell: deactivated,
`active_turns` cleared, energy decayed by one. -/
def decayCell (c : Cell) : Cell :=
  { kind := CellKind.neutral, activated := false,
    activation_odds := c.activation_odds, active_turns := 0,
    energy := c.energy - 1 }

/-- A plain cell with at most `10` energy just decays: it spends no random
draw, deactivates, and loses one energy. -/
theorem stepAgent_neutral_decay (w h : ℕ) (cells : List Cell) (g : RNG) (i : ℕ)
    (c : Cell) (hc : cells[i]? = some c) (hk : c.kind = CellKind.neutral)
    (h1 : 1 ≤ c.energy) (h2 : c.energy ≤ 10) :
    stepAgent w h cells g i = (cells.set i (decayCell c), g) := by
  rw [stepAgent_neutral_shape w h cells g i c hc hk,
    c.step_maintenance_deactivates g h1 (by omega),
    step_maintenance_rng_of_low c g h2, hk]
  rfl

/-- A scheduler pass over distinct indices all holding plain low-energy cells
only decays those cells by one and leaves the random source untouched. -/
theorem foldl_stepAgent_neutral (w h : ℕ) (is : List ℕ) (cells : List Cell) (g : RNG)
    (hnd : is.Nodup)
    (hok : ∀ i ∈ is, ∃ c : Cell, cells[i]? = some c ∧ c.kind = CellKind.neutral ∧
      1 ≤ c.energy ∧ c.energy ≤ 10) :
    ((is.foldl (fun p i => stepAgent w h p.1 p.2 i) (cells, g)).2 = g) ∧
    (∀ j : ℕ, j ∉ is →
      (is.foldl (fun p i => stepAgent w h p.1 p.2 i) (cells, g)).1[j]? = cells[j]?) ∧
    (∀ j ∈ is,
      (is.foldl (fun p i => stepAgent w h p.1 p.2 i) (cells, g)).1[j]? =
        (cells[j]?).map decayCell) := by
  induction is generalizing cells g with
  | nil =>
    exact ⟨rfl, fun j hj => rfl, fun j hj => absurd hj (List.not_mem_nil j)⟩
  | cons i rest ih =>
    obtain ⟨c, hc, hk, h1, h2⟩ := hok i (List.mem_cons_self i rest)
    obtain ⟨hilt, -⟩ := List.getElem?_eq_some.mp hc
    have hstep := stepAgent_neutral_decay w h cells g i c hc hk h1 h2
    have hinotr : i ∉ rest := (List.nodup_cons.mp hnd).1
    have hok' : ∀ i' ∈ rest, ∃ c' : Cell,
        (cells.set i (decayCell c))[i']? = some c' ∧ c'.kind = CellKind.neutral ∧
        1 ≤ c'.energy ∧ c'.energy ≤ 10 := by
      intro i' hi'
      obtain ⟨c', hc', hk', h1', h2'⟩ := hok i' (List.mem_cons_of_mem i hi')
      have hne : i ≠ i' := by
        intro e
        rw [e] at hinotr
        exact hinotr hi'
      exact ⟨c', by rw [List.getElem?_set_ne hne]; exact hc', hk', h1', h2'⟩
    obtain ⟨e1, e2, e3⟩ := ih _ g (List.nodup_cons.mp hnd).2 hok'
    rw [List.foldl_cons]
    dsimp only
    rw [hstep]
    refine ⟨e1, ?_, ?_⟩
    · intro j hj
      have hji : i ≠ j := by
        intro e
        rw [← e] at hj
        exact hj (List.mem_cons_self i rest)
      have hjr : j ∉ rest := fun e => hj (List.mem_cons_of_mem i e)
      rw [e2 j hjr, List.getElem?_set_ne hji]
    · intro j hj
      rcases List.mem_cons.mp hj with heq | hmem
      · subst heq
        rw [e2 j hinotr, List.getElem?_set_self hilt, hc]
        rfl
      · have hji : i ≠ j := by
          intro e
          rw [e] at hinotr
          exact hinotr hmem
        rw [e3 j hmem, List.getElem?_set_ne hji]

/-- Random stream used by the 5×5 scenario: every `r.random()` draw is `1/2`
and the `r.randint` draws come from `s`. -/
def c1g (s : ℕ → ℕ) : RNG :=
  { floats := fun _ => mkRat 1 2, nats := s, fidx := 0, nidx := 0 }

/-- One `step()` of the 5×5 dish with `proportionProducers = 0`,
`proportionConsumers = 0`. -/
def c1runS (s : ℕ → ℕ) : PetriDish × RNG :=
  PetriDish.step (PetriDish.init 5 5 0 0 (c1g s)).1 (PetriDish.init 5 5 0 0 (c1g s)).2

/-- The tick's state just before the center (scheduler index 12) acts: the
twelve agents stepped before it have already run. -/
def c1beforeCenter (s : ℕ → ℕ) : List Cell × RNG :=
  (List.range 12).foldl (fun p i => stepAgent 5 5 p.1 p.2 i)
    ((PetriDish.init 5 5 0 0 (c1g s)).1.cells, (PetriDish.init 5 5 0 0 (c1g s)).2)

/-- Initial grid of the scenario: all neutral except the forced pre-activated
center Producer at index 12. -/
def c1cells : List Cell :=
  List.replicate 12 (Cell.init CellKind.neutral false) ++
    Cell.init CellKind.producer true :: List.replicate 12 (Cell.init CellKind.neutral false)

set_option maxRecDepth 40000 in
/-- Claim C1 fails on the code: with all construction rolls `1/2` (so the grid
is exactly the claimed all-neutral-but-center one) and all transfer draws
`k = 1`, one `step()` leaves the center at `energy 19`, `active_turns 1`,
activated — but no neighbor ends the tick with energy in `[6, 10]`: the
neighbor at index 6 (position `(1,1)`) ends at energy `5`, because it had
already decayed to `4` before the center pushed. -/
theorem claim_C1_counterexample :
    ((PetriDish.init 5 5 0 0 (c1g fun _ => 0)).1.cells = c1cells) ∧
    (((c1runS fun _ => 0).1.cells[12]?).map
        (fun c => (c.energy, c.active_turns, c.activated)) = some ((19 : ℤ), (1 : ℕ), true)) ∧
    (¬ ∀ j ∈ neighborIndices 5 5 2 2, ∃ e : ℤ,
        ((c1runS fun _ => 0).1.cells[j]?).map Cell.energy = some e ∧ 6 ≤ e ∧ e ≤ 10) ∧
    (((c1runS fun _ => 0).1.cells[6]?).map Cell.energy = some 5) :=
  ⟨of_decide_eq_true rfl, of_decide_eq_true rfl, of_decide_eq_true rfl,
    of_decide_eq_true rfl⟩

/-- Random source state right after the 25 construction draws. -/
def c1gAfterInit (s : ℕ → ℕ) : RNG :=
  { floats := fun _ => mkRat 1 2, nats := s, fidx := 25, nidx := 0 }

/-- Random source state right after the center's activation roll. -/
def c1gAfterCenterRoll (s : ℕ → ℕ) : RNG :=
  { floats := fun _ => mkRat 1 2, nats := s, fidx := 26, nidx := 0 }

/-- Center Producer after its maintenance: one active turn, energy 19. -/
def c1center : Cell :=
  { kind := CellKind.producer, activated := true, activation_odds := mkRat 1 2,
    active_turns := 1, energy := 19 }

/-- A neutral cell that already paid its maintenance for the tick. -/
def c1n4 : Cell :=
  { kind := CellKind.neutral, activated := false, activation_odds := mkRat 1 2,
    active_turns := 0, energy := 4 }

/-- Neighbor indices of the center `(2,2)` in push order. -/
def c1idx : List ℕ := [6, 11, 16, 7, 17, 8, 13, 18]

/-- Scheduler indices stepped after the center. -/
def c1tail : List ℕ := [13, 14, 15, 16, 17, 18, 19, 20, 21, 22, 23, 24]

/-- Grid state right after the center's step (maintenance plus push). -/
def c1B (s : ℕ → ℕ) : List Cell × RNG :=
  transferLoop ((c1beforeCenter s).1.set 12 c1center) (c1gAfterCenterRoll s) c1idx
    (fun t k => t.add_energy k)

/-- A neutral cell pushed while still at its pre-maintenance energy 5. -/
def pushed5 (k : ℤ) : Cell :=
  ⟨CellKind.neutral, false, mkRat 1 2, 0, 5 + k⟩

/-- A neutral cell pushed after having decayed to energy 4. -/
def pushed4 (k : ℤ) : Cell :=
  ⟨CellKind.neutral, false, mkRat 1 2, 0, 4 + k⟩

theorem rng_ext (a b : RNG) (h1 : a.floats = b.floats) (h2 : a.nats = b.nats)
    (h3 : a.fidx = b.fidx) (h4 : a.nidx = b.nidx) : a = b := by
  cases a
  cases b
  dsimp only at h1 h2 h3 h4
  subst h1
  subst h2
  subst h3
  subst h4
  rfl

/-- The cells produced by the population loop depend on the random source
only through its float stream and float index. -/
theorem placeCells_cells_congr (center : ℕ × ℕ) (pp pc : ℚ) (ps : List (ℕ × ℕ)) :
    ∀ (g g' : RNG), g.floats = g'.floats → g.fidx = g'.fidx →
      (placeCells center pp pc ps g).1 = (placeCells center pp pc ps g').1 := by
  induction ps with
  | nil => intro g g' h1 h2; rfl
  | cons p rest ih =>
    intro g g' h1 h2
    rw [placeCells, placeCells]
    unfold RNG.random
    dsimp only
    rw [h1, h2]
    congr 1
    exact ih _ _ rfl rfl

theorem c1cells_eval : (placeCells (5 / 2, 5 / 2) 0 0 (positions 5 5) gV).1 = c1cells :=
  of_decide_eq_true rfl

theorem c1cells_ok : ∀ i ∈ List.range 12, ∃ c : Cell, c1cells[i]? = some c ∧
    c.kind = CellKind.neutral ∧ 1 ≤ c.energy ∧ c.energy ≤ 10 := by
  intro i hi
  rw [List.mem_range] at hi
  refine ⟨Cell.init CellKind.neutral false, ?_, rfl, by decide, by decide⟩
  interval_cases i <;> rfl

set_option maxRecDepth 40000 in
set_option maxHeartbeats 4000000 in
/-- Claim C1 amended — after one `step()` of the 5×5 dish (proportions `0`,
all construction rolls nonzero so the grid is all-neutral but the center),
the center Producer has `active_turns = 1`, `energy = 19`, stays activated,
and pushed `addEnergy(k)`, `k ∈ [1, 5]` drawn per neighbor, to each of its 8
Moore neighbors — but the scheduler is sequential: the four neighbors stepped
before the center (indices 6, 7, 8, 11) had already decayed to energy `4`
when the push arrived, and the four stepped after it (13, 16, 17, 18)
received the push at `5` and then decayed; so every neighbor ends the tick
at `4 + k ∈ [5, 9]`, not in `[6, 10]`. -/
theorem claim_C1_amended (s : ℕ → ℕ) :
    (((c1runS s).1.cells[12]?).map
        (fun c => (c.energy, c.active_turns, c.activated)) = some ((19 : ℤ), (1 : ℕ), true)) ∧
    (∀ (m j : ℕ), (neighborIndices 5 5 2 2)[m]? = some j →
      ∃ k : ℤ, 1 ≤ k ∧ k ≤ 5 ∧
        ((c1runS s).1.cells[j]?).map Cell.energy = some (4 + k)) ∧
    (∀ j ∈ ([6, 7, 8, 11] : List ℕ),
      ((c1beforeCenter s).1[j]?).map Cell.energy = some 4) ∧
    (∀ j ∈ ([13, 16, 17, 18] : List ℕ),
      ((c1beforeCenter s).1[j]?).map Cell.energy = some 5) := by
  have hcc : (placeCells (5 / 2, 5 / 2) 0 0 (positions 5 5) (c1g s)).1 = c1cells := by
    rw [placeCells_cells_congr (5 / 2, 5 / 2) 0 0 (positions 5 5) (c1g s) gV rfl rfl]
    exact c1cells_eval
  have hdish : (PetriDish.init 5 5 0 0 (c1g s)).1 = PetriDish.mk 5 5 c1cells := by
    unfold PetriDish.init
    dsimp only
    rw [hcc]
  have hg2 : (PetriDish.init 5 5 0 0 (c1g s)).2 = c1gAfterInit s := by
    obtain ⟨-, f2, f3, f4, f5, -⟩ :=
      placeCells_spec (5 / 2, 5 / 2) 0 0 (positions 5 5) (c1g s)
    unfold PetriDish.init
    dsimp only
    refine rng_ext _ _ ?_ ?_ ?_ ?_
    · rw [f2]
      rfl
    · rw [f3]
      rfl
    · rw [f4, positions_length]
      rfl
    · rw [f5]
      rfl
  have hAe : c1beforeCenter s = (List.range 12).foldl
      (fun p i => stepAgent 5 5 p.1 p.2 i) (c1cells, c1gAfterInit s) := by
    unfold c1beforeCenter
    rw [hdish, hg2]
  obtain ⟨hA1, hA2, hA3⟩ := foldl_stepAgent_neutral 5 5 (List.range 12) c1cells
    (c1gAfterInit s) (by decide) c1cells_ok
  rw [← hAe] at hA1 hA2 hA3
  have hA12 : (c1beforeCenter s).1[12]? = some (Cell.init CellKind.producer true) := by
    rw [hA2 12 (by decide)]
    rfl
  obtain ⟨h12lt, -⟩ := List.getElem?_eq_some.mp hA12
  have hmaint : ((Cell.init CellKind.producer true).step_maintenance (c1gAfterInit s)).1
      = c1center := rfl
  have hmrng : ((Cell.init CellKind.producer true).step_maintenance (c1gAfterInit s)).2
      = c1gAfterCenterRoll s := rfl
  have hpush : stepAgent 5 5 (c1beforeCenter s).1 (c1gAfterInit s) 12 = c1B s := by
    rw [stepAgent_producer_push 5 5 (c1beforeCenter s).1 (c1gAfterInit s) 12
        (Cell.init CellKind.producer true) hA12 rfl
        (by rw [hmaint]; exact ⟨rfl, by decide⟩),
      hmaint, hmrng,
      show neighborIndices 5 5 (12 / 5) (12 % 5) = c1idx from by decide]
    rfl
  have hk : ∀ m : ℕ,
      (1 + ((c1gAfterCenterRoll s).nats ((c1gAfterCenterRoll s).nidx + m) : ℤ) % 5)
        = 1 + (s m : ℤ) % 5 := by
    intro m
    simp [c1gAfterCenterRoll]
  have hBout : ∀ j : ℕ, j ∉ c1idx → (12 : ℕ) ≠ j →
      (c1B s).1[j]? = (c1beforeCenter s).1[j]? := by
    intro j hj h12
    have h1 := transferLoop_getElem_of_not_mem ((c1beforeCenter s).1.set 12 c1center)
      (c1gAfterCenterRoll s) c1idx (fun t k => t.add_energy k) j hj
    rw [List.getElem?_set_ne h12] at h1
    exact h1
  have hBpush : ∀ (m j : ℕ), c1idx[m]? = some j → (12 : ℕ) ≠ j →
      (c1B s).1[j]? = ((c1beforeCenter s).1[j]?).map
        (fun t => t.add_energy (1 + (s m : ℤ) % 5)) := by
    intro m j hmj h12
    have h1 := transferLoop_getElem_of_nodup ((c1beforeCenter s).1.set 12 c1center)
      (c1gAfterCenterRoll s) c1idx (fun t k => t.add_energy k) (by decide) m j hmj
    rw [List.getElem?_set_ne h12, hk m] at h1
    exact h1
  have hB12 : (c1B s).1[12]? = some c1center := by
    have h1 := transferLoop_getElem_of_not_mem ((c1beforeCenter s).1.set 12 c1center)
      (c1gAfterCenterRoll s) c1idx (fun t k => t.add_energy k) 12 (by decide)
    rw [List.getElem?_set_self h12lt] at h1
    exact h1
  have hAn4 : ∀ j ∈ ([6, 7, 8, 11] : List ℕ), (c1beforeCenter s).1[j]? = some c1n4 := by
    intro j hj
    fin_cases hj <;> rw [hA3 _ (by decide)] <;> rfl
  have hAn5 : ∀ j ∈ ([13, 14, 15, 16, 17, 18, 19, 20, 21, 22, 23, 24] : List ℕ),
      (c1beforeCenter s).1[j]? = some (Cell.init CellKind.neutral false) := by
    intro j hj
    fin_cases hj <;> rw [hA2 _ (by decide)] <;> rfl
  have haddN4 : ∀ k : ℤ, 0 ≤ k → k ≤ 5 → c1n4.add_energy k = pushed4 k := by
    intro k h0 h5
    have he : c1n4.energy = 4 := rfl
    rw [Cell.add_energy_of_lt _ _ (by omega)]
    rfl
  have haddN5 : ∀ k : ℤ, 0 ≤ k → k ≤ 5 →
      (Cell.init CellKind.neutral false).add_energy k = pushed5 k := by
    intro k h0 h5
    have he : (Cell.init CellKind.neutral false).energy = 5 := rfl
    rw [Cell.add_energy_of_lt _ _ (by omega)]
    rfl
  have hBtail : ∀ (m i : ℕ), c1idx[m]? = some i → i ∈ ([13, 16, 17, 18] : List ℕ) →
      (c1B s).1[i]? = some (pushed5 (1 + (s m : ℤ) % 5)) := by
    intro m i hmi hi
    have h12 : (12 : ℕ) ≠ i := by fin_cases hi <;> decide
    have hmem : i ∈ ([13, 14, 15, 16, 17, 18, 19, 20, 21, 22, 23, 24] : List ℕ) := by
      fin_cases hi <;> decide
    rw [hBpush m i hmi h12, hAn5 i hmem, Option.map_some',
      haddN5 _ (by omega) (by omega)]
  have hBn5 : ∀ i : ℕ, i ∉ c1idx → (12 : ℕ) ≠ i →
      i ∈ ([13, 14, 15, 16, 17, 18, 19, 20, 21, 22, 23, 24] : List ℕ) →
      (c1B s).1[i]? = some (Cell.init CellKind.neutral false) := by
    intro i h1 h2 h3
    rw [hBout i h1 h2, hAn5 i h3]
  have hokC : ∀ i ∈ c1tail, ∃ c : Cell, (c1B s).1[i]? = some c ∧
      c.kind = CellKind.neutral ∧ 1 ≤ c.energy ∧ c.energy ≤ 10 := by
    intro i hi
    fin_cases hi
    · exact ⟨_, hBtail 6 13 (by decide) (by decide), rfl,
        by dsimp only [pushed5]; omega, by dsimp only [pushed5]; omega⟩
    · exact ⟨_, hBn5 14 (by decide) (by decide) (by decide), rfl, by decide, by decide⟩
    · exact ⟨_, hBn5 15 (by decide) (by decide) (by decide), rfl, by decide, by decide⟩
    · exact ⟨_, hBtail 2 16 (by decide) (by decide), rfl,
        by dsimp only [pushed5]; omega, by dsimp only [pushed5]; omega⟩
    · exact ⟨_, hBtail 4 17 (by decide) (by decide), rfl,
        by dsimp only [pushed5]; omega, by dsimp only [pushed5]; omega⟩
    · exact ⟨_, hBtail 7 18 (by decide) (by decide), rfl,
        by dsimp only [pushed5]; omega, by dsimp only [pushed5]; omega⟩
    · exact ⟨_, hBn5 19 (by decide) (by decide) (by decide), rfl, by decide, by decide⟩
    · exact ⟨_, hBn5 20 (by decide) (by decide) (by decide), rfl, by decide, by decide⟩
    · exact ⟨_, hBn5 21 (by decide) (by decide) (by decide), rfl, by decide, by decide⟩
    · exact ⟨_, hBn5 22 (by decide) (by decide) (by decide), rfl, by decide, by decide⟩
    · exact ⟨_, hBn5 23 (by decide) (by decide) (by decide), rfl, by decide, by decide⟩
    · exact ⟨_, hBn5 24 (by decide) (by decide) (by decide), rfl, by decide, by decide⟩
  obtain ⟨hC1, hC2, hC3⟩ := foldl_stepAgent_neutral 5 5 c1tail (c1B s).1 (c1B s).2
    (by decide) hokC
  rw [Prod.mk.eta] at hC2 hC3
  have hrun : (c1runS s).1.cells =
      (c1tail.foldl (fun p i => stepAgent 5 5 p.1 p.2 i) (c1B s)).1 := by
    have h0 : (c1runS s).1.cells = ((List.range 25).foldl
        (fun p i => stepAgent 5 5 p.1 p.2 i) (c1cells, c1gAfterInit s)).1 := by
      unfold c1runS PetriDish.step
      dsimp only
      rw [hdish, hg2]
      dsimp only
      rw [show c1cells.length = 25 from by decide]
    rw [h0, show List.range 25 = List.range 12 ++ 12 :: c1tail from by decide,
      List.foldl_append, List.foldl_cons]
    have hAfold : (List.range 12).foldl (fun p i => stepAgent 5 5 p.1 p.2 i)
        (c1cells, c1gAfterInit s) = ((c1beforeCenter s).1, c1gAfterInit s) := by
      rw [← hAe, ← hA1]
    rw [hAfold]
    dsimp only
    rw [hpush]
  refine ⟨?_, ?_, ?_, ?_⟩
  · rw [hrun, hC2 12 (by decide), hB12]
    rfl
  · intro m j hmj
    rw [show neighborIndices 5 5 2 2 = c1idx from by decide] at hmj
    have hmlt : m < 8 := by
      by_contra hge
      rw [List.getElem?_eq_none (by simp [c1idx]; omega)] at hmj
      exact Option.noConfusion hmj
    interval_cases m
    · rw [show (c1idx[0]? : Option ℕ) = some 6 from rfl] at hmj
      obtain rfl := Option.some.inj hmj
      refine ⟨1 + (s 0 : ℤ) % 5, by omega, by omega, ?_⟩
      rw [hrun, hC2 6 (by decide), hBpush 0 6 (by decide) (by decide),
        hAn4 6 (by decide), Option.map_some', haddN4 _ (by omega) (by omega),
        Option.map_some']
      rfl
    · rw [show (c1idx[1]? : Option ℕ) = some 11 from rfl] at hmj
      obtain rfl := Option.some.inj hmj
      refine ⟨1 + (s 1 : ℤ) % 5, by omega, by omega, ?_⟩
      rw [hrun, hC2 11 (by decide), hBpush 1 11 (by decide) (by decide),
        hAn4 11 (by decide), Option.map_some', haddN4 _ (by omega) (by omega),
        Option.map_some']
      rfl
    · rw [show (c1idx[2]? : Option ℕ) = some 16 from rfl] at hmj
      obtain rfl := Option.some.inj hmj
      refine ⟨1 + (s 2 : ℤ) % 5, by omega, by omega, ?_⟩
      rw [hrun, hC3 16 (by decide), hBtail 2 16 (by decide) (by decide),
        Option.map_some', Option.map_some']
      dsimp only [decayCell, pushed5]
      rw [Option.some_inj]
      omega
    · rw [show (c1idx[3]? : Option ℕ) = some 7 from rfl] at hmj
      obtain rfl := Option.some.inj hmj
      refine ⟨1 + (s 3 : ℤ) % 5, by omega, by omega, ?_⟩
      rw [hrun, hC2 7 (by decide), hBpush 3 7 (by decide) (by decide),
        hAn4 7 (by decide), Option.map_some', haddN4 _ (by omega) (by omega),
        Option.map_some']
      rfl
    · rw [show (c1idx[4]? : Option ℕ) = some 17 from rfl] at hmj
      obtain rfl := Option.some.inj hmj
      refine ⟨1 + (s 4 : ℤ) % 5, by omega, by omega, ?_⟩
      rw [hrun, hC3 17 (by decide), hBtail 4 17 (by decide) (by decide),
        Option.map_some', Option.map_some']
      dsimp only [decayCell, pushed5]
      rw [Option.some_inj]
      omega
    · rw [show (c1idx[5]? : Option ℕ) = some 8 from rfl] at hmj
      obtain rfl := Option.some.inj hmj
      refine ⟨1 + (s 5 : ℤ) % 5, by omega, by omega, ?_⟩
      rw [hrun, hC2 8 (by decide), hBpush 5 8 (by decide) (by decide),
        hAn4 8 (by decide), Option.map_some', haddN4 _ (by omega) (by omega),
        Option.map_some']
      rfl
    · rw [show (c1idx[6]? : Option ℕ) = some 13 from rfl] at hmj
      obtain rfl := Option.some.inj hmj
      refine ⟨1 + (s 6 : ℤ) % 5, by omega, by omega, ?_⟩
      rw [hrun, hC3 13 (by decide), hBtail 6 13 (by decide) (by decide),
        Option.map_some', Option.map_some']
      dsimp only [decayCell, pushed5]
      rw [Option.some_inj]
      omega
    · rw [show (c1idx[7]? : Option ℕ) = some 18 from rfl] at hmj
      obtain rfl := Option.some.inj hmj
      refine ⟨1 + (s 7 : ℤ) % 5, by omega, by omega, ?_⟩
      rw [hrun, hC3 18 (by decide), hBtail 7 18 (by decide) (by decide),
        Option.map_some', Option.map_some']
      dsimp only [decayCell, pushed5]
      rw [Option.some_inj]
      omega
  · intro j hj
    fin_cases hj <;> rw [hAn4 _ (by decide)] <;> rfl
  · intro j hj
    fin_cases hj <;> rw [hAn5 _ (by decide)] <;> rfl

end CellModel
